import Mathlib

/-!
Verification of the HPCSA search application core (hpcsa-search-app).

This file gives a shallow embedding, in Lean 4, of the parts of the
TypeScript source that the specification describes:

* the Remote Lookup Client and Retry Wrapper
  (class HPCSAService: searchSingle, searchBatch, executeSearch,
  parseSearchResults, searchSingleAsBatchResult);
* the Statistics Aggregator
  (class BatchProcessorService: calculateStatistics);
* the registration extractor
  (class RegistrationExtractorService: extract, shouldProcessRow,
  isHPCSARegistered, getRegistrationNumber, getFieldValue).

The network is modelled by an oracle (`Env`): a function from the
registration number, the timeout passed to `executeSearch`, and the
attempt index within one wrapper invocation, to the outcome of the
HTTP call.  An `Except.error` outcome covers every way the promise in
`executeSearch` can reject: an abort by the timeout controller, a
thrown `API returned <status>` error on a non-ok HTTP status, a network
failure, or a JSON decode failure.  Observable effects (outbound calls,
backoff pauses, inter-wave pauses, wave log lines, progress-callback
invocations) are recorded in an explicit event trace so that temporal
claims can be stated about them.
-/

namespace HPCSA

/-! ## JavaScript string primitives -/

/-- Model of the JavaScript string method `trim()`: remove leading and
trailing whitespace characters. -/
def jsTrim (s : String) : String :=
  ⟨((s.data.dropWhile Char.isWhitespace).reverse.dropWhile Char.isWhitespace).reverse⟩

/-- Model of `replace(/\s+/g, "")`: remove every whitespace character. -/
def stripWs (s : String) : String :=
  ⟨s.data.filter (fun ch => !ch.isWhitespace)⟩

/-- Model of `toLowerCase()`: lowercase character by character. -/
def jsToLower (s : String) : String :=
  ⟨s.data.map Char.toLower⟩

/-- Model of `toUpperCase()`: uppercase character by character. -/
def jsToUpper (s : String) : String :=
  ⟨s.data.map Char.toUpper⟩

theorem dropWhile_dropWhile_self (p : Char → Bool) (l : List Char) :
    (l.dropWhile p).dropWhile p = l.dropWhile p := by
  induction l with
  | nil => rfl
  | cons a t ih =>
    by_cases h : p a
    · simp [List.dropWhile_cons, h, ih]
    · simp [List.dropWhile_cons, h]

theorem dropWhile_head_false (p : Char → Bool) (a : Char) (t l : List Char)
    (h : l.dropWhile p = a :: t) : p a = false := by
  have hne : l.dropWhile p ≠ [] := by simp [h]
  have := List.head_dropWhile_not p l hne
  simpa [h] using this

/-- A list obtained by dropping a prefix of the reversal, reversed back,
is a prefix of the original list. -/
theorem reverse_dropWhile_reverse_prefix (p : Char → Bool) (l : List Char) :
    ((l.reverse.dropWhile p).reverse) <+: l := by
  have hsuf : l.reverse.dropWhile p <:+ l.reverse := List.dropWhile_suffix p
  have := List.reverse_prefix.mpr (by simpa using hsuf)
  simpa using this

/-- The JavaScript `trim()` is idempotent. -/
theorem jsTrim_jsTrim (s : String) : jsTrim (jsTrim s) = jsTrim s := by
  unfold jsTrim
  set p := Char.isWhitespace
  set l1 := s.data.dropWhile p with hl1
  set l2 := (l1.reverse.dropWhile p).reverse with hl2
  show (⟨((l2.dropWhile p).reverse.dropWhile p).reverse⟩ : String) = ⟨l2⟩
  have h2 : l2.dropWhile p = l2 := by
    cases hcase : l2 with
    | nil => simp [hcase]
    | cons a t =>
      have hpre : l2 <+: l1 := by
        rw [hl2]; exact reverse_dropWhile_reverse_prefix p l1
      have hl1head : ∃ t1, l1 = a :: t1 := by
        rcases hpre with ⟨r, hr⟩
        exact ⟨t ++ r, by rw [← hr, hcase]; simp⟩
      rcases hl1head with ⟨t1, ht1⟩
      have hpa : p a = false := dropWhile_head_false p a t1 s.data (by rw [← hl1, ht1])
      simp [hcase, List.dropWhile_cons, hpa]
  rw [h2]
  have h3 : l2.reverse.dropWhile p = l2.reverse := by
    rw [hl2, List.reverse_reverse]
    exact dropWhile_dropWhile_self p l1.reverse
  rw [h3]
  simp

/-- Every character of `stripWs s` is non-whitespace. -/
theorem stripWs_no_whitespace (s : String) :
    ∀ ch ∈ (stripWs s).data, ch.isWhitespace = false := by
  intro ch hch
  unfold stripWs at hch
  simp only [List.mem_filter] at hch
  simpa using hch.2

/-! ## Data model (src/src/lib/services/types.ts and the local interface
`HPCSAApiResponse` of the HPCSA service file) -/

/-- One cell of a raw remote row.  `none` models a missing (`undefined`)
or `null` cell; `some s` models the string the remote put there.  The
remote rows are fixed-width arrays, modelled as `List Cell` where an
out-of-range index also reads as missing. -/
abbrev Cell := Option String

/-- interface HPCSAApiResponse: `data` is the array of raw rows, `error`
is the payload-level error flag (`string | null`).  A `null` `data`
field of a malformed payload is modelled as the empty row list, which
the parsing guard treats identically. -/
structure HPCSAApiResponse where
  data : List (List Cell)
  error : Option String
deriving DecidableEq

/-- interface HPCSARecord. -/
structure HPCSARecord where
  name : String
  registration : String
  city : String
  status : String
deriving DecidableEq

/-- interface BatchSearchResult (the optional pass-through fields
`professionalCouncilName` and `timeInSession` are never written by the
service and are omitted). -/
structure BatchSearchResult where
  registration : String
  name : String
  city : String
  status : String
  found : Bool
deriving DecidableEq

/-- interface BatchStatistics. -/
structure BatchStatistics where
  activeCount : Nat
  inactiveCount : Nat
  notFoundCount : Nat
  totalProcessed : Nat
deriving DecidableEq

/-- interface HPCSAApiConfig (the string field `apiUrl` plays no role in
the verified behaviour and is omitted). -/
structure HPCSAApiConfig where
  timeoutMs : Nat
  maxRetries : Nat
  batchSize : Nat
  maxConcurrentRequests : Nat
  delayBetweenBatchesMs : Nat
deriving DecidableEq

/-- The `defaultConfig` fallback numbers of the service file (the values
used when no environment variable overrides them). -/
def defaultConfig : HPCSAApiConfig :=
  { timeoutMs := 15000
    maxRetries := 3
    batchSize := 20
    maxConcurrentRequests := 5
    delayBetweenBatchesMs := 200 }

/-- interface SearchOptions. -/
structure SearchOptions where
  timeoutMs : Option Nat := none
  maxRetries : Option Nat := none
deriving DecidableEq

/-- interface BatchSearchOptions.  The `onProgress` callback is not a
data value here; its invocations are recorded in the event trace. -/
structure BatchSearchOptions where
  timeoutMs : Option Nat := none
  maxRetries : Option Nat := none
  batchSize : Option Nat := none
  maxConcurrent : Option Nat := none
  delayBetweenBatchesMs : Option Nat := none
deriving DecidableEq

/-! ## Observable events -/

/-- Observable effects of the service, in program order.  `call` is one
invocation of `executeSearch` (registration number, timeout, attempt
index within the wrapper); `retryDelay` is the fixed backoff
`delay(500)` inside `searchSingleAsBatchResult`; `waveDelay` is the
inter-wave `delay(delayBetweenBatchesMs)` of `searchBatch`; `waveLog`
mirrors the per-wave `Processing batch m/M: k registrations` log line;
`progress` is one invocation of the `onProgress` callback. -/
inductive Event where
  | call (reg : String) (timeoutMs : Nat) (attempt : Nat)
  | retryDelay (ms : Nat)
  | waveDelay (ms : Nat)
  | waveLog (batchNumber totalBatches size : Nat)
  | progress (completed total : Nat)
deriving DecidableEq

/-- The network oracle: outcome of `executeSearch` for a registration
number, a timeout value, and the attempt index within one wrapper
invocation.  `Except.error ()` is any rejection (timeout abort, non-ok
HTTP status, network or JSON decode failure). -/
abbrev Env := String → Nat → Nat → Except Unit HPCSAApiResponse

/-- Arguments of the `progress` events of a trace, in order. -/
def progressCalls (evs : List Event) : List (Nat × Nat) :=
  evs.filterMap fun e =>
    match e with
    | .progress a b => some (a, b)
    | _ => none

/-- Sizes logged by the `waveLog` events of a trace, in order. -/
def waveSizes (evs : List Event) : List Nat :=
  evs.filterMap fun e =>
    match e with
    | .waveLog _ _ k => some k
    | _ => none

/-- Number of inter-wave delay events in a trace. -/
def waveDelayCount (evs : List Event) : Nat :=
  (evs.filterMap fun e =>
    match e with
    | .waveDelay ms => some ms
    | _ => none).length

/-- Number of `executeSearch` invocations recorded in a trace. -/
def callCount (evs : List Event) : Nat :=
  (evs.filterMap fun e =>
    match e with
    | .call r t a => some (r, t, a)
    | _ => none).length

/-! ## Remote Lookup Client (HPCSAService, src/unnamed/part_003) -/

/-- JavaScript truthiness of the `string | null` field `result.error`:
truthy exactly when non-null and non-empty. -/
def errTruthy : Option String → Bool
  | none => false
  | some s => s ≠ ""

/-- JavaScript `row[i] || fallback` on a fixed-width row: the cell when
it is present and a non-empty string, the fallback when the index is out
of range, the cell is `null`, or the cell is the empty string. -/
def cellOr (row : List Cell) (i : Nat) (fallback : String) : String :=
  match row[i]? with
  | some (some s) => if s = "" then fallback else s
  | some none => fallback
  | none => fallback

/-- Body of the `result.data.map` callback of `parseSearchResults`.
Data columns: 0 Title, 1 Surname, 2 Fullname, 3 Registration, 4 City,
5 PostalCode, 6 Category, 7 Status. -/
def rowToRecord (registrationNumber : String) (row : List Cell) : HPCSARecord :=
  { name := jsTrim (cellOr row 0 "" ++ " " ++ cellOr row 1 "" ++ " " ++ cellOr row 2 "")
    registration := stripWs (cellOr row 3 registrationNumber)
    city := cellOr row 4 ""
    status := cellOr row 7 "" }

/-- HPCSAService.parseSearchResults: an error flag, a null `data`, or an
empty `data` yields the empty record list; otherwise every raw row maps
positionally to a record. -/
def parseSearchResults (result : HPCSAApiResponse) (registrationNumber : String) :
    List HPCSARecord :=
  if errTruthy result.error || result.data.isEmpty then []
  else result.data.map (rowToRecord registrationNumber)

/-- HPCSAService.searchSingle: one `executeSearch` attempt; a rejection
is caught, logged, and turned into the empty record list.  The second
component is the trace of calls. -/
def searchSingle (env : Env) (cfg : HPCSAApiConfig) (registrationNumber : String)
    (options : SearchOptions) : List HPCSARecord × List Event :=
  let t := options.timeoutMs.getD cfg.timeoutMs
  match env registrationNumber t 0 with
  | .ok result => (parseSearchResults result registrationNumber, [.call registrationNumber t 0])
  | .error _ => ([], [.call registrationNumber t 0])

/-- The not-found sentinel Outcome built in `searchSingleAsBatchResult`. -/
def notFoundResult (registrationNumber : String) : BatchSearchResult :=
  { registration := registrationNumber
    name := ""
    city := ""
    status := ""
    found := false }

/-- The `{...record, found: true}` Outcome built from the head record. -/
def foundResult (record : HPCSARecord) : BatchSearchResult :=
  { registration := record.registration
    name := record.name
    city := record.city
    status := record.status
    found := true }

/-- Shared tail of both attempt branches of `searchSingleAsBatchResult`:
zero records give the not-found sentinel, otherwise `records[0]` is
taken with `found: true`. -/
def recordsOutcome (records : List HPCSARecord) (registrationNumber : String) :
    BatchSearchResult :=
  match records with
  | [] => notFoundResult registrationNumber
  | record :: _ => foundResult record

/-- HPCSAService.searchSingleAsBatchResult (the Retry Wrapper): one
attempt; on rejection a fixed `delay(500)` backoff and exactly one
further attempt with the same parameters; a second rejection yields the
not-found sentinel.  The trace records the calls and the backoff. -/
def searchSingleAsBatchResult (env : Env) (cfg : HPCSAApiConfig)
    (registrationNumber : String) (options : SearchOptions) :
    BatchSearchResult × List Event :=
  let t := options.timeoutMs.getD cfg.timeoutMs
  match env registrationNumber t 0 with
  | .ok result =>
      (recordsOutcome (parseSearchResults result registrationNumber) registrationNumber,
        [.call registrationNumber t 0])
  | .error _ =>
      match env registrationNumber t 1 with
      | .ok result =>
          (recordsOutcome (parseSearchResults result registrationNumber) registrationNumber,
            [.call registrationNumber t 0, .retryDelay 500, .call registrationNumber t 1])
      | .error _ =>
          (notFoundResult registrationNumber,
            [.call registrationNumber t 0, .retryDelay 500, .call registrationNumber t 1])

/-- Number of waves: `Math.ceil(total / maxConcurrent)` for a positive
divisor, written with natural division. -/
def numWaves (total maxConcurrent : Nat) : Nat :=
  (total + maxConcurrent - 1) / maxConcurrent

/-- The wave loop of HPCSAService.searchBatch
(`for (let i = 0; i < registrationNumbers.length; i += maxConcurrent)`).
`fuel` bounds the number of loop iterations; `searchBatch` supplies the
input length, which is enough whenever `maxConcurrent` is positive
(with `maxConcurrent = 0` the source loop never terminates).  Each wave
takes the next `maxConcurrent` identifiers, runs the Retry Wrapper on
each, logs the wave, appends the wave results in dispatch order, invokes
the progress callback with `(min (i + maxConcurrent) total, total)`, and
pauses `delayBetweenBatchesMs` exactly when identifiers remain. -/
def searchBatchGo (env : Env) (cfg : HPCSAApiConfig)
    (t maxConcurrent delayMs total : Nat) :
    Nat → List String → Nat → List BatchSearchResult × List Event
  | _, [], _ => ([], [])
  | 0, _ :: _, _ => ([], [])
  | fuel + 1, reg :: rest, i =>
    let batch := (reg :: rest).take maxConcurrent
    let pairs := batch.map fun r =>
      searchSingleAsBatchResult env cfg r { timeoutMs := some t }
    let tail := searchBatchGo env cfg t maxConcurrent delayMs total fuel
      ((reg :: rest).drop maxConcurrent) (i + maxConcurrent)
    (pairs.map Prod.fst ++ tail.fst,
      Event.waveLog (i / maxConcurrent + 1) (numWaves total maxConcurrent) batch.length
        :: ((pairs.map Prod.snd).flatten
          ++ Event.progress (min (i + maxConcurrent) total) total
            :: ((if i + maxConcurrent < total then [Event.waveDelay delayMs] else [])
              ++ tail.snd)))

/-- HPCSAService.searchBatch: options default to the injected
configuration; the loop starts at index 0 with the full input list. -/
def searchBatch (env : Env) (cfg : HPCSAApiConfig)
    (registrationNumbers : List String) (options : BatchSearchOptions) :
    List BatchSearchResult × List Event :=
  searchBatchGo env cfg
    (options.timeoutMs.getD cfg.timeoutMs)
    (options.maxConcurrent.getD cfg.maxConcurrentRequests)
    (options.delayBetweenBatchesMs.getD cfg.delayBetweenBatchesMs)
    registrationNumbers.length
    registrationNumbers.length
    registrationNumbers 0

/-! ## Statistics Aggregator
(BatchProcessorService.calculateStatistics,
src/src/lib/services/batch-processor-service.ts) -/

/-- The `activeCount` filter predicate:
`r.found && jsToLower r.statusCase() === "active"`. -/
def isActiveOutcome (r : BatchSearchResult) : Bool :=
  r.found && (jsToLower r.status == "active")

/-- The `inactiveCount` filter predicate:
`r.found && jsToLower r.statusCase() !== "active"`. -/
def isInactiveOutcome (r : BatchSearchResult) : Bool :=
  r.found && !(jsToLower r.status == "active")

/-- The `notFoundCount` filter predicate: `!r.found`. -/
def isNotFoundOutcome (r : BatchSearchResult) : Bool :=
  !r.found

/-- BatchProcessorService.calculateStatistics. -/
def calculateStatistics (results : List BatchSearchResult) : BatchStatistics :=
  { activeCount := (results.filter isActiveOutcome).length
    inactiveCount := (results.filter isInactiveOutcome).length
    notFoundCount := (results.filter isNotFoundOutcome).length
    totalProcessed := results.length }

/-! ## Registration extractor
(RegistrationExtractorService, src/src/lib/services/registration-extractor-service.ts) -/

/-- The discriminated file-type tag `"csv" | "excel"`. -/
inductive FileType where
  | csv
  | excel
deriving DecidableEq

/-- A parsed file row, `Record<string, unknown>`: a partial map from
field names to cell values.  `none` models a missing (`undefined`) or
`null` field; string-valued cells are taken verbatim (the source passes
every value through `String(...)`, the identity on strings). -/
abbrev Row := String → Option String

/-- One side of the FieldMappings configuration.  In the TypeScript
type every CSV field list is required and some Excel field lists are
optional; both sides are modelled uniformly with `Option`, the required
lists always being present. -/
structure FieldMappingSet where
  attended : Option (List String)
  timeInSession : Option (List String)
  professionalCouncilName : Option (List String)
  registration : List String

/-- interface FieldMappings. -/
structure FieldMappings where
  csv : FieldMappingSet
  excel : FieldMappingSet

/-- The lookup `this.fieldMappings[options.fileType]`. -/
def fieldMappingsFor (fm : FieldMappings) (ft : FileType) : FieldMappingSet :=
  match ft with
  | .csv => fm.csv
  | .excel => fm.excel

/-- The `defaultFieldMappings` value of the source file. -/
def defaultFieldMappings : FieldMappings :=
  { csv :=
      { attended := some ["Attended", "attended", "ATTENDED", "Did Attend", "did_attend"]
        timeInSession := some ["Time in Session (minutes)", "Time in Session",
          "time in session (minutes)", "time in session", "Time in Session (minutes)",
          "Duration (minutes)", "duration"]
        professionalCouncilName := some ["Professional council name",
          "professional council name", "Professional Council Name", "Council Name",
          "council name", "CouncilName"]
        registration := ["Professional council number", "professional council number",
          "Professional Council Number", "Council Number", "council number",
          "CouncilNumber"] }
    excel :=
      { attended := some ["Attended", "attended", "ATTENDED", "Did Attend", "did_attend"]
        timeInSession := some ["Time in Session (minutes)", "Time in Session",
          "time in session (minutes)", "time in session", "Duration (minutes)",
          "duration"]
        professionalCouncilName := some ["Professional council name",
          "professional council name", "Professional Council Name", "Council Name",
          "council name", "CouncilName"]
        registration := ["Registration number", "registration number",
          "Registration Number", "RegistrationNumber", "Registration", "registration",
          "RegNo", "regNo"] } }

/-- RegistrationExtractorService.getFieldValue: the first candidate
field whose value is neither `undefined`, `null`, nor the empty
string. -/
def getFieldValue (row : Row) (possibleFieldNames : List String) : Option String :=
  match possibleFieldNames with
  | [] => none
  | fieldName :: restNames =>
    match row fieldName with
    | some value => if value = "" then getFieldValue row restNames else some value
    | none => getFieldValue row restNames

/-- RegistrationExtractorService.shouldProcessRow: no attended value, or
a trimmed lowercased value of `no`, `false` or `0`, blocks the row. -/
def shouldProcessRow (row : Row) (attendedFields : List String) : Bool :=
  match getFieldValue row attendedFields with
  | none => false
  | some attendedValue =>
    if attendedValue = "" then false
    else
      let attendedStr := jsToLower (jsTrim attendedValue)
      if attendedStr = "no" || attendedStr = "false" || attendedStr = "0" then false
      else true

/-- RegistrationExtractorService.isHPCSARegistered: only a trimmed
uppercased council name equal to `HPCSA` passes. -/
def isHPCSARegistered (row : Row) (councilNameFields : List String) : Bool :=
  match getFieldValue row councilNameFields with
  | none => false
  | some councilNameValue =>
    if councilNameValue = "" then false
    else jsToUpper (jsTrim councilNameValue) == "HPCSA"

/-- RegistrationExtractorService.getRegistrationNumber: the first
non-empty registration field for the file type, trimmed; `null` when no
candidate field has a truthy value. -/
def getRegistrationNumber (fm : FieldMappings) (ft : FileType) (row : Row) :
    Option String :=
  let fields := (fieldMappingsFor fm ft).registration
  match getFieldValue row fields with
  | none => none
  | some value => if value = "" then none else some (jsTrim value)

/-- What the extraction loop does with one row: `countedSkip` is any
`skippedCount++; continue` path (attendance block, council block, or a
falsy registration number); `tryAdd regStr` reaches the final push
guard with the trimmed registration string. -/
inductive RowAction where
  | countedSkip
  | tryAdd (regStr : String)
deriving DecidableEq

/-- The attendance guard of the loop body:
`attendedFields && attendedFields.length > 0` and the row fails
`shouldProcessRow`. -/
def attendedBlocks (fms : FieldMappingSet) (row : Row) : Bool :=
  match fms.attended with
  | some fs => !fs.isEmpty && !(shouldProcessRow row fs)
  | none => false

/-- The council guard of the loop body: configured council fields, a
CSV file, and the row fails `isHPCSARegistered`. -/
def councilBlocks (fms : FieldMappingSet) (ft : FileType) (row : Row) : Bool :=
  match ft, fms.professionalCouncilName with
  | .csv, some fs => !fs.isEmpty && !(isHPCSARegistered row fs)
  | _, _ => false

/-- The loop body of RegistrationExtractorService.extract for one row,
up to the final push guard. -/
def rowAction (fm : FieldMappings) (ft : FileType) (row : Row) : RowAction :=
  let fms := fieldMappingsFor fm ft
  if attendedBlocks fms row then .countedSkip
  else if councilBlocks fms ft row then .countedSkip
  else
    match getRegistrationNumber fm ft row with
    | some regNumber =>
        if regNumber = "" then .countedSkip else .tryAdd (jsTrim regNumber)
    | none => .countedSkip

/-- The `for (const row of data)` loop of extract, carrying the
accumulated `registrationNumbers` and `skippedCount`.  A `tryAdd` row
is pushed only when its string is truthy and not already present
(`includes`); a duplicate is neither pushed nor counted. -/
def extractLoop (fm : FieldMappings) (ft : FileType) :
    List Row → List String → Nat → List String × Nat
  | [], regs, skipped => (regs, skipped)
  | row :: rest, regs, skipped =>
    match rowAction fm ft row with
    | .countedSkip => extractLoop fm ft rest regs (skipped + 1)
    | .tryAdd regStr =>
      if regStr ≠ "" ∧ regStr ∉ regs then
        extractLoop fm ft rest (regs ++ [regStr]) skipped
      else
        extractLoop fm ft rest regs skipped

/-- interface ExtractRegistrationResult. -/
structure ExtractRegistrationResult where
  registrationNumbers : List String
  skippedCount : Nat
  totalRows : Nat
deriving DecidableEq

/-- RegistrationExtractorService.extract. -/
def extract (fm : FieldMappings) (ft : FileType) (data : List Row) :
    ExtractRegistrationResult :=
  let p := extractLoop fm ft data [] 0
  { registrationNumbers := p.fst
    skippedCount := p.snd
    totalRows := data.length }

/-- The trimmed registration strings of the rows that reach the push
guard, in row order (the stream the loop deduplicates). -/
def qualifyingRegs (fm : FieldMappings) (ft : FileType) (data : List Row) :
    List String :=
  data.filterMap fun row =>
    match rowAction fm ft row with
    | .tryAdd regStr => some regStr
    | .countedSkip => none

/-- Keep the first occurrence of each element not yet seen; the
reference behaviour of push-unless-included deduplication. -/
def firstDedupAux (seen : List String) : List String → List String
  | [] => []
  | x :: xs =>
    if x ∈ seen then firstDedupAux seen xs
    else x :: firstDedupAux (seen ++ [x]) xs

/-- Whether the extraction loop counts a row as skipped. -/
def rowSkips (fm : FieldMappings) (ft : FileType) (row : Row) : Bool :=
  match rowAction fm ft row with
  | .countedSkip => true
  | .tryAdd _ => false

/-! ## Concrete instances used by witnesses -/

/-- A payload with one matching row, status `Active`. -/
def respFound : HPCSAApiResponse :=
  { data := [[some "Dr", some "Jane", some "Doe", some "MP 0001", some "Cape Town",
      none, none, some "Active"]]
    error := none }

/-- A remote that always answers with `respFound`. -/
def envOk : Env := fun _ _ _ => .ok respFound

/-- A remote whose every call rejects (times out or errors). -/
def envFail : Env := fun _ _ _ => .error ()

/-! ## Statistics Aggregator theorems -/

theorem statistics_counts_sum (l : List BatchSearchResult) :
    (l.filter isActiveOutcome).length + (l.filter isInactiveOutcome).length
      + (l.filter isNotFoundOutcome).length = l.length := by
  induction l with
  | nil => rfl
  | cons r t ih =>
    cases hf : r.found <;> cases hs : (jsToLower r.status == "active") <;>
      simp [List.filter_cons, isActiveOutcome, isInactiveOutcome, isNotFoundOutcome,
        hf, hs] <;> omega

/-- C2: calculateStatistics classifies each Outcome into exactly one
bucket (active iff found with lowercased status `active`; inactive iff
found with any other status; not-found iff not found), sets
totalProcessed to the list length, and the three counts always sum to
totalProcessed. -/
theorem calculateStatistics_spec (results : List BatchSearchResult) :
    (calculateStatistics results).totalProcessed = results.length
    ∧ (calculateStatistics results).activeCount
        + (calculateStatistics results).inactiveCount
        + (calculateStatistics results).notFoundCount
        = (calculateStatistics results).totalProcessed
    ∧ (∀ r : BatchSearchResult,
        (isActiveOutcome r = true ↔ (r.found = true ∧ jsToLower r.status = "active"))
        ∧ (isInactiveOutcome r = true ↔ (r.found = true ∧ jsToLower r.status ≠ "active"))
        ∧ (isNotFoundOutcome r = true ↔ r.found = false)
        ∧ (isActiveOutcome r).toNat + (isInactiveOutcome r).toNat
            + (isNotFoundOutcome r).toNat = 1) := by
  refine ⟨rfl, statistics_counts_sum results, fun r => ⟨?_, ?_, ?_, ?_⟩⟩
  · simp [isActiveOutcome]
  · simp [isInactiveOutcome]
  · simp [isNotFoundOutcome]
  · cases hf : r.found <;> cases hs : (jsToLower r.status == "active") <;>
      simp [isActiveOutcome, isInactiveOutcome, isNotFoundOutcome, hf, hs]

/-- The worked scenario of the spec: one active, one inactive, one not
found. -/
def demoResults : List BatchSearchResult :=
  [ { registration := "MP0001", name := "Dr Jane Doe", city := "Cape Town",
      status := "Active", found := true }
  , { registration := "MP0002", name := "Mr John Roe", city := "Durban",
      status := "Suspended", found := true }
  , { registration := "ZZ9999", name := "", city := "", status := "",
      found := false } ]

/-- Closed instance of C2 at a concrete Outcome list. -/
theorem calculateStatistics_spec_witness :
    (calculateStatistics demoResults).activeCount
        + (calculateStatistics demoResults).inactiveCount
        + (calculateStatistics demoResults).notFoundCount
        = (calculateStatistics demoResults).totalProcessed
    ∧ (calculateStatistics demoResults).totalProcessed = 3 := by
  have h := calculateStatistics_spec demoResults
  exact ⟨h.2.1, h.1.trans (by decide)⟩

/-! ## Wave arithmetic -/

theorem numWaves_zero (c : Nat) (hc : 0 < c) : numWaves 0 c = 0 := by
  unfold numWaves
  exact Nat.div_eq_of_lt (by omega)

theorem numWaves_succ_chunk (c L : Nat) (hc : 0 < c) (hL : 0 < L) :
    numWaves L c = numWaves (L - c) c + 1 := by
  unfold numWaves
  rcases le_or_lt c L with hcL | hcL
  · have h1 : L + c - 1 = (L - c + c - 1) + c := by omega
    rw [h1, Nat.add_div_right _ hc]
  · have h1 : L - c = 0 := by omega
    have h2 : L + c - 1 = (L - 1) + c := by omega
    rw [h1, h2, Nat.add_div_right _ hc,
      Nat.div_eq_of_lt (by omega), Nat.div_eq_of_lt (by omega)]

theorem numWaves_pos (c L : Nat) (hc : 0 < c) (hL : 0 < L) :
    0 < numWaves L c := by
  rw [numWaves_succ_chunk c L hc hL]; omega

theorem numWaves_last (c L : Nat) (hc : 0 < c) (hL1 : 0 < L) (hL2 : L ≤ c) :
    numWaves L c = 1 := by
  rw [numWaves_succ_chunk c L hc hL1, Nat.sub_eq_zero_of_le hL2, numWaves_zero c hc]

/-! ## The Retry Wrapper emits only call and backoff events -/

theorem wrapper_progressCalls (env : Env) (cfg : HPCSAApiConfig)
    (reg : String) (opts : SearchOptions) :
    progressCalls (searchSingleAsBatchResult env cfg reg opts).snd = [] := by
  cases h0 : env reg (opts.timeoutMs.getD cfg.timeoutMs) 0 with
  | ok result => simp [searchSingleAsBatchResult, h0, progressCalls]
  | error e =>
    cases h1 : env reg (opts.timeoutMs.getD cfg.timeoutMs) 1 with
    | ok result => simp [searchSingleAsBatchResult, h0, h1, progressCalls]
    | error f => simp [searchSingleAsBatchResult, h0, h1, progressCalls]

theorem wrapper_waveSizes (env : Env) (cfg : HPCSAApiConfig)
    (reg : String) (opts : SearchOptions) :
    waveSizes (searchSingleAsBatchResult env cfg reg opts).snd = [] := by
  cases h0 : env reg (opts.timeoutMs.getD cfg.timeoutMs) 0 with
  | ok result => simp [searchSingleAsBatchResult, h0, waveSizes]
  | error e =>
    cases h1 : env reg (opts.timeoutMs.getD cfg.timeoutMs) 1 with
    | ok result => simp [searchSingleAsBatchResult, h0, h1, waveSizes]
    | error f => simp [searchSingleAsBatchResult, h0, h1, waveSizes]

theorem wrapper_waveDelayCount (env : Env) (cfg : HPCSAApiConfig)
    (reg : String) (opts : SearchOptions) :
    waveDelayCount (searchSingleAsBatchResult env cfg reg opts).snd = 0 := by
  cases h0 : env reg (opts.timeoutMs.getD cfg.timeoutMs) 0 with
  | ok result => simp [searchSingleAsBatchResult, h0, waveDelayCount]
  | error e =>
    cases h1 : env reg (opts.timeoutMs.getD cfg.timeoutMs) 1 with
    | ok result => simp [searchSingleAsBatchResult, h0, h1, waveDelayCount]
    | error f => simp [searchSingleAsBatchResult, h0, h1, waveDelayCount]

theorem flat_wrapper_progressCalls (env : Env) (cfg : HPCSAApiConfig)
    (t : Nat) (batch : List String) :
    progressCalls ((batch.map fun r =>
      (searchSingleAsBatchResult env cfg r { timeoutMs := some t }).snd).flatten) = [] := by
  induction batch with
  | nil => rfl
  | cons reg rest ih =>
    simp only [List.map_cons, List.flatten_cons]
    unfold progressCalls at ih ⊢
    rw [List.filterMap_append, ih]
    have := wrapper_progressCalls env cfg reg { timeoutMs := some t }
    unfold progressCalls at this
    rw [this]
    rfl

theorem flat_wrapper_waveSizes (env : Env) (cfg : HPCSAApiConfig)
    (t : Nat) (batch : List String) :
    waveSizes ((batch.map fun r =>
      (searchSingleAsBatchResult env cfg r { timeoutMs := some t }).snd).flatten) = [] := by
  induction batch with
  | nil => rfl
  | cons reg rest ih =>
    simp only [List.map_cons, List.flatten_cons]
    unfold waveSizes at ih ⊢
    rw [List.filterMap_append, ih]
    have := wrapper_waveSizes env cfg reg { timeoutMs := some t }
    unfold waveSizes at this
    rw [this]
    rfl

theorem flat_wrapper_waveDelayCount (env : Env) (cfg : HPCSAApiConfig)
    (t : Nat) (batch : List String) :
    waveDelayCount ((batch.map fun r =>
      (searchSingleAsBatchResult env cfg r { timeoutMs := some t }).snd).flatten) = 0 := by
  induction batch with
  | nil => rfl
  | cons reg rest ih =>
    simp only [List.map_cons, List.flatten_cons]
    unfold waveDelayCount at ih ⊢
    rw [List.filterMap_append]
    simp only [List.length_append, ih]
    have := wrapper_waveDelayCount env cfg reg { timeoutMs := some t }
    unfold waveDelayCount at this
    rw [this]

/-! ## Wave loop invariants -/

theorem searchBatchGo_fst (env : Env) (cfg : HPCSAApiConfig)
    (t c d total : Nat) (hc : 0 < c) :
    ∀ (fuel : Nat) (remaining : List String) (i : Nat), remaining.length ≤ fuel →
      (searchBatchGo env cfg t c d total fuel remaining i).fst
        = remaining.map (fun r =>
            (searchSingleAsBatchResult env cfg r { timeoutMs := some t }).fst) := by
  intro fuel
  induction fuel with
  | zero =>
    intro remaining i h
    cases remaining with
    | nil => rfl
    | cons reg rest => simp at h
  | succ n ih =>
    intro remaining i h
    cases remaining with
    | nil => rfl
    | cons reg rest =>
      have hlen : ((reg :: rest).drop c).length ≤ n := by
        simp only [List.length_drop, List.length_cons] at h ⊢
        omega
      simp only [searchBatchGo]
      rw [ih _ _ hlen, List.map_map]
      simp only [Function.comp_def]
      rw [← List.map_append, List.take_append_drop]

theorem searchBatchGo_progress (env : Env) (cfg : HPCSAApiConfig)
    (t c d total : Nat) (hc : 0 < c) :
    ∀ (fuel : Nat) (remaining : List String) (i : Nat), remaining.length ≤ fuel →
      progressCalls (searchBatchGo env cfg t c d total fuel remaining i).snd
        = (List.range (numWaves remaining.length c)).map
            (fun w => (min (i + w * c + c) total, total)) := by
  intro fuel
  induction fuel with
  | zero =>
    intro remaining i h
    cases remaining with
    | nil => simp [searchBatchGo, progressCalls, numWaves_zero c hc]
    | cons reg rest => simp at h
  | succ n ih =>
    intro remaining i h
    cases remaining with
    | nil => simp [searchBatchGo, progressCalls, numWaves_zero c hc]
    | cons reg rest =>
      have hlen : ((reg :: rest).drop c).length ≤ n := by
        simp only [List.length_drop, List.length_cons] at h ⊢
        omega
      have htail := ih ((reg :: rest).drop c) (i + c) hlen
      simp only [searchBatchGo]
      unfold progressCalls at htail ⊢
      simp only [List.map_map, Function.comp_def, List.filterMap_cons,
        List.filterMap_append, htail]
      have hflat := flat_wrapper_progressCalls env cfg t ((reg :: rest).take c)
      unfold progressCalls at hflat
      rw [hflat]
      have hL : numWaves (reg :: rest).length c
          = numWaves ((reg :: rest).length - c) c + 1 :=
        numWaves_succ_chunk c _ hc (by simp)
      simp only [List.length_cons] at hL ⊢
      rw [hL, List.range_succ_eq_map, List.map_cons, List.map_map]
      have hdrop : (rest.length + 1) - c = ((reg :: rest).drop c).length := by
        simp [List.length_drop]
      rw [hdrop]
      by_cases hlt : i + c < total <;>
        · simp only [hlt, if_true, if_false, List.filterMap_cons, List.filterMap_nil,
            List.nil_append, List.cons_append, reduceIte]
          refine congrArg₂ _ (by simp) ?_
          apply List.map_congr_left
          intro w hw
          have harith : i + (w + 1) * c + c = i + c + w * c + c := by
            rw [Nat.succ_mul]; omega
          simp [Function.comp, harith]

theorem searchBatchGo_waveSizes (env : Env) (cfg : HPCSAApiConfig)
    (t c d total : Nat) (hc : 0 < c) :
    ∀ (fuel : Nat) (remaining : List String) (i : Nat), remaining.length ≤ fuel →
      waveSizes (searchBatchGo env cfg t c d total fuel remaining i).snd
        = (List.range (numWaves remaining.length c)).map
            (fun w => min c (remaining.length - w * c)) := by
  intro fuel
  induction fuel with
  | zero =>
    intro remaining i h
    cases remaining with
    | nil => simp [searchBatchGo, waveSizes, numWaves_zero c hc]
    | cons reg rest => simp at h
  | succ n ih =>
    intro remaining i h
    cases remaining with
    | nil => simp [searchBatchGo, waveSizes, numWaves_zero c hc]
    | cons reg rest =>
      have hlen : ((reg :: rest).drop c).length ≤ n := by
        simp only [List.length_drop, List.length_cons] at h ⊢
        omega
      have htail := ih ((reg :: rest).drop c) (i + c) hlen
      simp only [searchBatchGo]
      unfold waveSizes at htail ⊢
      simp only [List.map_map, Function.comp_def, List.filterMap_cons,
        List.filterMap_append, htail]
      have hflat := flat_wrapper_waveSizes env cfg t ((reg :: rest).take c)
      unfold waveSizes at hflat
      rw [hflat]
      have hL : numWaves (reg :: rest).length c
          = numWaves ((reg :: rest).length - c) c + 1 :=
        numWaves_succ_chunk c _ hc (by simp)
      simp only [List.length_cons] at hL ⊢
      rw [hL, List.range_succ_eq_map, List.map_cons, List.map_map]
      have hdrop : (rest.length + 1) - c = ((reg :: rest).drop c).length := by
        simp [List.length_drop]
      rw [hdrop]
      by_cases hlt : i + c < total <;>
        · simp only [hlt, if_true, if_false, List.filterMap_cons, List.filterMap_nil,
            List.nil_append, List.cons_append, reduceIte]
          refine congrArg₂ _ (by simp [List.length_take]) ?_
          apply List.map_congr_left
          intro w hw
          have harith : (rest.length + 1) - (w + 1) * c
              = ((reg :: rest).drop c).length - w * c := by
            simp only [List.length_drop, List.length_cons, Nat.succ_mul]
            generalize w * c = m
            omega
          simp [Function.comp, harith]

theorem searchBatchGo_waveDelays (env : Env) (cfg : HPCSAApiConfig)
    (t c d total : Nat) (hc : 0 < c) :
    ∀ (fuel : Nat) (remaining : List String) (i : Nat), remaining.length ≤ fuel →
      total = i + remaining.length →
      waveDelayCount (searchBatchGo env cfg t c d total fuel remaining i).snd
        = numWaves remaining.length c - 1 := by
  intro fuel
  induction fuel with
  | zero =>
    intro remaining i h htot
    cases remaining with
    | nil => simp [searchBatchGo, waveDelayCount, numWaves_zero c hc]
    | cons reg rest => simp at h
  | succ n ih =>
    intro remaining i h htot
    cases remaining with
    | nil => simp [searchBatchGo, waveDelayCount, numWaves_zero c hc]
    | cons reg rest =>
      have hlen : ((reg :: rest).drop c).length ≤ n := by
        simp only [List.length_drop, List.length_cons] at h ⊢
        omega
      simp only [searchBatchGo]
      unfold waveDelayCount
      simp only [List.map_map, Function.comp_def, List.filterMap_cons,
        List.filterMap_append, List.length_append]
      have hflat := flat_wrapper_waveDelayCount env cfg t ((reg :: rest).take c)
      unfold waveDelayCount at hflat
      rw [hflat]
      rcases le_or_lt (reg :: rest).length c with hle | hgt
      · have hnil : (reg :: rest).drop c = [] := List.drop_eq_nil_of_le hle
        have hite : ¬ (i + c < total) := by
          simp only [List.length_cons] at htot hle
          omega
        rw [hnil]
        simp only [searchBatchGo, hite, if_false, reduceIte, List.filterMap_nil,
          List.length_nil]
        rw [numWaves_last c _ hc (by simp) hle]
      · have htot2 : total = (i + c) + ((reg :: rest).drop c).length := by
          simp only [List.length_drop, List.length_cons] at htot ⊢
          simp only [List.length_cons] at hgt
          omega
        have htail := ih ((reg :: rest).drop c) (i + c) hlen htot2
        unfold waveDelayCount at htail
        rw [htail]
        have hite : i + c < total := by
          simp only [List.length_cons] at htot hgt
          omega
        simp only [hite, if_true, reduceIte, List.filterMap_cons, List.length_cons,
          List.filterMap_nil, List.length_nil]
        have hdroplen : 0 < ((reg :: rest).drop c).length := by
          simp only [List.length_drop, List.length_cons]
          simp only [List.length_cons] at hgt
          omega
        have hpos := numWaves_pos c ((reg :: rest).drop c).length hc hdroplen
        have hL : numWaves (reg :: rest).length c
            = numWaves ((reg :: rest).drop c).length c + 1 := by
          have hdrop2 : ((reg :: rest).drop c).length = (reg :: rest).length - c := by
            simp [List.length_drop]
          rw [hdrop2]
          exact numWaves_succ_chunk c _ hc (by simp)
        simp only [List.length_cons] at hL ⊢
        omega

theorem searchBatchGo_lastEvent (env : Env) (cfg : HPCSAApiConfig)
    (t c d total : Nat) (hc : 0 < c) :
    ∀ (fuel : Nat) (remaining : List String) (i : Nat), remaining.length ≤ fuel →
      total = i + remaining.length → remaining ≠ [] →
      (searchBatchGo env cfg t c d total fuel remaining i).snd.getLast?
        = some (.progress total total) := by
  intro fuel
  induction fuel with
  | zero =>
    intro remaining i h htot hne
    cases remaining with
    | nil => exact absurd rfl hne
    | cons reg rest => simp at h
  | succ n ih =>
    intro remaining i h htot hne
    cases remaining with
    | nil => exact absurd rfl hne
    | cons reg rest =>
      have hlen : ((reg :: rest).drop c).length ≤ n := by
        simp only [List.length_drop, List.length_cons] at h ⊢
        omega
      simp only [searchBatchGo]
      rcases le_or_lt (reg :: rest).length c with hle | hgt
      · have hnil : (reg :: rest).drop c = [] := List.drop_eq_nil_of_le hle
        have hite : ¬ (i + c < total) := by
          simp only [List.length_cons] at htot hle
          omega
        have hmin : min (i + c) total = total := by
          simp only [List.length_cons] at htot hle
          omega
        rw [hnil]
        simp only [searchBatchGo, hite, if_false, reduceIte, hmin,
          List.append_nil, List.nil_append]
        rw [← List.cons_append, List.getLast?_concat]
      · have htot2 : total = (i + c) + ((reg :: rest).drop c).length := by
          simp only [List.length_drop, List.length_cons] at htot ⊢
          simp only [List.length_cons] at hgt
          omega
        have hdropne : (reg :: rest).drop c ≠ [] := by
          intro hcon
          have := congrArg List.length hcon
          simp only [List.length_drop, List.length_cons, List.length_nil] at this
          simp only [List.length_cons] at hgt
          omega
        have htail := ih ((reg :: rest).drop c) (i + c) hlen htot2 hdropne
        have htailne : (searchBatchGo env cfg t c d total n
            ((reg :: rest).drop c) (i + c)).snd ≠ [] := by
          intro hcon
          rw [hcon] at htail
          simp at htail
        rw [← List.cons_append, List.cons_append]
        rw [show ∀ (A : List Event) (p : Event) (B T : List Event),
            Event.waveLog (i / c + 1) (numWaves total c) ((reg :: rest).take c).length
              :: (A ++ p :: (B ++ T))
            = (Event.waveLog (i / c + 1) (numWaves total c)
                ((reg :: rest).take c).length :: (A ++ p :: B)) ++ T by
          intro A p B T
          simp]
        rw [List.getLast?_append_of_ne_nil _ htailne]
        exact htail

/-! ## Batch dispatcher theorems (C1, C4, C7) -/

/-- C1: searchBatch returns exactly one Outcome per input identifier:
the results list is the input list mapped through the Retry Wrapper, so
it has the same length as the input and the Outcome at every position k
is the Outcome of the identifier at input position k, independently of
completion timing (the oracle fixes each outcome per identifier and
attempt, not per completion order). -/
theorem searchBatch_one_outcome_per_input (env : Env) (cfg : HPCSAApiConfig)
    (regs : List String) (opts : BatchSearchOptions)
    (hc : 0 < opts.maxConcurrent.getD cfg.maxConcurrentRequests) :
    (searchBatch env cfg regs opts).fst
        = regs.map (fun r => (searchSingleAsBatchResult env cfg r
            { timeoutMs := some (opts.timeoutMs.getD cfg.timeoutMs) }).fst)
    ∧ (searchBatch env cfg regs opts).fst.length = regs.length
    ∧ (∀ k : Nat, (searchBatch env cfg regs opts).fst[k]?
        = (regs[k]?).map (fun r => (searchSingleAsBatchResult env cfg r
            { timeoutMs := some (opts.timeoutMs.getD cfg.timeoutMs) }).fst)) := by
  have h := searchBatchGo_fst env cfg (opts.timeoutMs.getD cfg.timeoutMs)
    (opts.maxConcurrent.getD cfg.maxConcurrentRequests)
    (opts.delayBetweenBatchesMs.getD cfg.delayBetweenBatchesMs)
    regs.length hc regs.length regs 0 le_rfl
  have hmap : (searchBatch env cfg regs opts).fst
      = regs.map (fun r => (searchSingleAsBatchResult env cfg r
          { timeoutMs := some (opts.timeoutMs.getD cfg.timeoutMs) }).fst) := by
    simp only [searchBatch]
    exact h
  refine ⟨hmap, ?_, ?_⟩
  · rw [hmap, List.length_map]
  · intro k
    rw [hmap, List.getElem?_map]

/-- Closed instance of C1 at three identifiers and concurrency two. -/
theorem searchBatch_one_outcome_per_input_witness :
    0 < (({ maxConcurrent := some 2 } :
        BatchSearchOptions).maxConcurrent.getD defaultConfig.maxConcurrentRequests)
    ∧ (searchBatch envFail defaultConfig ["MP0001", "MP0002", "MP0003"]
        { maxConcurrent := some 2 }).fst.length = 3 := by
  have h := searchBatch_one_outcome_per_input envFail defaultConfig
    ["MP0001", "MP0002", "MP0003"] { maxConcurrent := some 2 } (by decide)
  exact ⟨by decide, h.2.1.trans (by decide)⟩

/-- C4: with concurrency c, searchBatch dispatches ceil(n/c) waves whose
sizes are c except possibly a shorter final wave, and invokes the
progress callback exactly once per wave with arguments
(min (waveStart + c) n, n); an empty input yields an empty result list,
zero waves and no progress invocation. -/
theorem searchBatch_waves_progress (env : Env) (cfg : HPCSAApiConfig)
    (regs : List String) (opts : BatchSearchOptions)
    (hc : 0 < opts.maxConcurrent.getD cfg.maxConcurrentRequests) :
    progressCalls (searchBatch env cfg regs opts).snd
        = (List.range (numWaves regs.length
            (opts.maxConcurrent.getD cfg.maxConcurrentRequests))).map
            (fun w => (min (w * (opts.maxConcurrent.getD cfg.maxConcurrentRequests)
                + (opts.maxConcurrent.getD cfg.maxConcurrentRequests)) regs.length,
              regs.length))
    ∧ waveSizes (searchBatch env cfg regs opts).snd
        = (List.range (numWaves regs.length
            (opts.maxConcurrent.getD cfg.maxConcurrentRequests))).map
            (fun w => min (opts.maxConcurrent.getD cfg.maxConcurrentRequests)
              (regs.length - w * (opts.maxConcurrent.getD cfg.maxConcurrentRequests)))
    ∧ (regs = [] → (searchBatch env cfg regs opts).fst = []
        ∧ (searchBatch env cfg regs opts).snd = []) := by
  refine ⟨?_, ?_, ?_⟩
  · have h := searchBatchGo_progress env cfg (opts.timeoutMs.getD cfg.timeoutMs)
      (opts.maxConcurrent.getD cfg.maxConcurrentRequests)
      (opts.delayBetweenBatchesMs.getD cfg.delayBetweenBatchesMs)
      regs.length hc regs.length regs 0 le_rfl
    simp only [searchBatch]
    rw [h]
    apply List.map_congr_left
    intro w hw
    simp [Nat.zero_add]
  · have h := searchBatchGo_waveSizes env cfg (opts.timeoutMs.getD cfg.timeoutMs)
      (opts.maxConcurrent.getD cfg.maxConcurrentRequests)
      (opts.delayBetweenBatchesMs.getD cfg.delayBetweenBatchesMs)
      regs.length hc regs.length regs 0 le_rfl
    simp only [searchBatch]
    exact h
  · intro hnil
    subst hnil
    exact ⟨rfl, rfl⟩

/-- Closed instance of C4: concurrency 2, five identifiers, three waves
of sizes 2, 2, 1, progress reported as 2, 4, 5 of 5. -/
theorem searchBatch_waves_progress_witness :
    progressCalls (searchBatch envFail defaultConfig
        ["MP0001", "MP0002", "MP0003", "MP0004", "MP0005"]
        { maxConcurrent := some 2 }).snd = [(2, 5), (4, 5), (5, 5)]
    ∧ waveSizes (searchBatch envFail defaultConfig
        ["MP0001", "MP0002", "MP0003", "MP0004", "MP0005"]
        { maxConcurrent := some 2 }).snd = [2, 2, 1] := by
  have h := searchBatch_waves_progress envFail defaultConfig
    ["MP0001", "MP0002", "MP0003", "MP0004", "MP0005"]
    { maxConcurrent := some 2 } (by decide)
  exact ⟨h.1.trans (by decide), h.2.1.trans (by decide)⟩

/-- C7: a batch run performs exactly (number of waves minus one)
inter-wave delay pauses, and when the input is non-empty the final
event of the run is the last progress report, so no delay ever follows
the final wave. -/
theorem searchBatch_interwave_delays (env : Env) (cfg : HPCSAApiConfig)
    (regs : List String) (opts : BatchSearchOptions)
    (hc : 0 < opts.maxConcurrent.getD cfg.maxConcurrentRequests) :
    waveDelayCount (searchBatch env cfg regs opts).snd
        = numWaves regs.length
            (opts.maxConcurrent.getD cfg.maxConcurrentRequests) - 1
    ∧ (regs ≠ [] → (searchBatch env cfg regs opts).snd.getLast?
        = some (.progress regs.length regs.length)) := by
  constructor
  · have h := searchBatchGo_waveDelays env cfg (opts.timeoutMs.getD cfg.timeoutMs)
      (opts.maxConcurrent.getD cfg.maxConcurrentRequests)
      (opts.delayBetweenBatchesMs.getD cfg.delayBetweenBatchesMs)
      regs.length hc regs.length regs 0 le_rfl (by omega)
    simp only [searchBatch]
    exact h
  · intro hne
    have h := searchBatchGo_lastEvent env cfg (opts.timeoutMs.getD cfg.timeoutMs)
      (opts.maxConcurrent.getD cfg.maxConcurrentRequests)
      (opts.delayBetweenBatchesMs.getD cfg.delayBetweenBatchesMs)
      regs.length hc regs.length regs 0 le_rfl (by omega) hne
    simp only [searchBatch]
    exact h

/-- Closed instance of C7: three waves, exactly two inter-wave pauses,
trace ending in the final progress report. -/
theorem searchBatch_interwave_delays_witness :
    waveDelayCount (searchBatch envFail defaultConfig
        ["MP0001", "MP0002", "MP0003", "MP0004", "MP0005"]
        { maxConcurrent := some 2 }).snd = 2
    ∧ (searchBatch envFail defaultConfig
        ["MP0001", "MP0002", "MP0003", "MP0004", "MP0005"]
        { maxConcurrent := some 2 }).snd.getLast?
      = some (.progress 5 5) := by
  have h := searchBatch_interwave_delays envFail defaultConfig
    ["MP0001", "MP0002", "MP0003", "MP0004", "MP0005"]
    { maxConcurrent := some 2 } (by decide)
  exact ⟨h.1.trans (by decide), h.2 (by decide)⟩

/-! ## Determinism of the dispatcher (C8) -/

/-- C8: with the remote state fixed (one oracle from identifier, timeout
and attempt to response), two runs of searchBatch on the same identifier
list with the same configuration return identical results lists and
hence identical statistics. -/
theorem searchBatch_deterministic (env : Env) (cfg : HPCSAApiConfig)
    (regs : List String) (opts : BatchSearchOptions)
    (run1 run2 : List BatchSearchResult × List Event)
    (h1 : run1 = searchBatch env cfg regs opts)
    (h2 : run2 = searchBatch env cfg regs opts) :
    run1.fst = run2.fst
    ∧ calculateStatistics run1.fst = calculateStatistics run2.fst := by
  subst h1; subst h2; exact ⟨rfl, rfl⟩

/-! ## Retry Wrapper theorems (C3) -/

/-- C3: when the first attempt of the Retry Wrapper rejects, it waits
the fixed 500 ms backoff and makes exactly one further attempt with the
same registration number and timeout; it never makes more than two
calls; the configured maxRetries (in the injected configuration and in
the options) has no effect; and a double rejection yields the
found=false sentinel with empty name, city and status instead of a
propagated error. -/
theorem retryWrapper_spec (env : Env) (cfg : HPCSAApiConfig)
    (opts : SearchOptions) (reg : String) :
    (env reg (opts.timeoutMs.getD cfg.timeoutMs) 0 = .error () →
      (searchSingleAsBatchResult env cfg reg opts).snd
        = [.call reg (opts.timeoutMs.getD cfg.timeoutMs) 0, .retryDelay 500,
            .call reg (opts.timeoutMs.getD cfg.timeoutMs) 1])
    ∧ (env reg (opts.timeoutMs.getD cfg.timeoutMs) 0 = .error () →
        env reg (opts.timeoutMs.getD cfg.timeoutMs) 1 = .error () →
        (searchSingleAsBatchResult env cfg reg opts).fst
          = { registration := reg, name := "", city := "", status := "",
              found := false })
    ∧ callCount (searchSingleAsBatchResult env cfg reg opts).snd ≤ 2
    ∧ (∀ (m1 m2 : Nat) (o1 o2 : Option Nat),
        searchSingleAsBatchResult env { cfg with maxRetries := m1 } reg
            { opts with maxRetries := o1 }
          = searchSingleAsBatchResult env { cfg with maxRetries := m2 } reg
            { opts with maxRetries := o2 }) := by
  refine ⟨?_, ?_, ?_, fun m1 m2 o1 o2 => rfl⟩
  · intro h0
    simp only [searchSingleAsBatchResult, h0]
    cases h1 : env reg (opts.timeoutMs.getD cfg.timeoutMs) 1 <;> simp [h1]
  · intro h0 h1
    simp [searchSingleAsBatchResult, h0, h1, notFoundResult]
  · cases h0 : env reg (opts.timeoutMs.getD cfg.timeoutMs) 0 with
    | ok result => simp [searchSingleAsBatchResult, h0, callCount]
    | error e =>
      cases h1 : env reg (opts.timeoutMs.getD cfg.timeoutMs) 1 with
      | ok result => simp [searchSingleAsBatchResult, h0, h1, callCount]
      | error f => simp [searchSingleAsBatchResult, h0, h1, callCount]

/-- Closed instance of C3 at a remote that always rejects. -/
theorem retryWrapper_spec_witness :
    (searchSingleAsBatchResult envFail defaultConfig "MP0001" {}).snd
      = [.call "MP0001" 15000 0, .retryDelay 500, .call "MP0001" 15000 1]
    ∧ (searchSingleAsBatchResult envFail defaultConfig "MP0001" {}).fst
      = { registration := "MP0001", name := "", city := "", status := "",
          found := false } := by
  have h := retryWrapper_spec envFail defaultConfig {} "MP0001"
  exact ⟨h.1 rfl, h.2.1 rfl rfl⟩

/-! ## Single-search theorems (C9) -/

/-- C9: searchSingle makes exactly one attempt (no retry, no backoff)
and never propagates a failure: a rejected call yields the empty record
list, the same value a successful response with zero rows parses to; a
successful call yields its parsed records. -/
theorem searchSingle_spec (env : Env) (cfg : HPCSAApiConfig)
    (opts : SearchOptions) (reg : String) :
    (searchSingle env cfg reg opts).snd
        = [.call reg (opts.timeoutMs.getD cfg.timeoutMs) 0]
    ∧ (env reg (opts.timeoutMs.getD cfg.timeoutMs) 0 = .error () →
        (searchSingle env cfg reg opts).fst = [])
    ∧ (∀ resp, env reg (opts.timeoutMs.getD cfg.timeoutMs) 0 = .ok resp →
        (searchSingle env cfg reg opts).fst = parseSearchResults resp reg)
    ∧ (env reg (opts.timeoutMs.getD cfg.timeoutMs) 0 = .error () →
        (searchSingle env cfg reg opts).fst
          = parseSearchResults { data := [], error := none } reg) := by
  refine ⟨?_, ?_, ?_, ?_⟩
  · cases h0 : env reg (opts.timeoutMs.getD cfg.timeoutMs) 0 with
    | ok result => simp [searchSingle, h0]
    | error e => simp [searchSingle, h0]
  · intro h0; simp [searchSingle, h0]
  · intro resp h0; simp [searchSingle, h0]
  · intro h0; simp [searchSingle, h0, parseSearchResults]

/-- Closed instance of C9 at a remote that always rejects. -/
theorem searchSingle_spec_witness :
    (searchSingle envFail defaultConfig "MP0001" {}).snd
        = [.call "MP0001" 15000 0]
    ∧ (searchSingle envFail defaultConfig "MP0001" {}).fst = [] := by
  have h := searchSingle_spec envFail defaultConfig {} "MP0001"
  exact ⟨h.1, h.2.1 rfl⟩

/-! ## Positional parsing contract (C5) -/

/-- C5: on a successful, error-free response, every raw row is mapped
positionally: the row record reads only positions 0, 1, 2, 3, 4 and 7;
its name is trimmed (positions 0 to 2 joined with single spaces); its
registration has no whitespace and falls back to the input identifier
when position 3 is missing; and when the response holds several rows the
batch Outcome is built from the record of the first row. -/
theorem parse_positional_contract (env : Env) (cfg : HPCSAApiConfig)
    (opts : SearchOptions) (reg : String) (resp : HPCSAApiResponse)
    (row : List Cell) (rest : List (List Cell))
    (herr : errTruthy resp.error = false)
    (hdata : resp.data = row :: rest)
    (hok : env reg (opts.timeoutMs.getD cfg.timeoutMs) 0 = .ok resp) :
    parseSearchResults resp reg = (row :: rest).map (rowToRecord reg)
    ∧ (searchSingleAsBatchResult env cfg reg opts).fst
        = foundResult (rowToRecord reg row)
    ∧ jsTrim (rowToRecord reg row).name = (rowToRecord reg row).name
    ∧ (∀ ch ∈ (rowToRecord reg row).registration.data, ch.isWhitespace = false)
    ∧ (row[3]? = none ∨ row[3]? = some none ∨ row[3]? = some (some "") →
        (rowToRecord reg row).registration = stripWs reg)
    ∧ (∀ row2 : List Cell,
        row2[0]? = row[0]? → row2[1]? = row[1]? →
        row2[2]? = row[2]? → row2[3]? = row[3]? →
        row2[4]? = row[4]? → row2[7]? = row[7]? →
        rowToRecord reg row2 = rowToRecord reg row) := by
  have hparse : parseSearchResults resp reg = (row :: rest).map (rowToRecord reg) := by
    simp [parseSearchResults, herr, hdata]
  refine ⟨hparse, ?_, ?_, ?_, ?_, ?_⟩
  · simp [searchSingleAsBatchResult, hok, hparse, recordsOutcome]
  · exact jsTrim_jsTrim _
  · exact stripWs_no_whitespace _
  · intro h3
    have : cellOr row 3 reg = reg := by
      rcases h3 with h | h | h <;> simp [cellOr, h]
    simp [rowToRecord, this]
  · intro row2 e0 e1 e2 e3 e4 e7
    simp [rowToRecord, cellOr, e0, e1, e2, e3, e4, e7]

/-- Closed instance of C5 at the concrete one-row response. -/
theorem parse_positional_contract_witness :
    parseSearchResults respFound "MP0001"
        = [rowToRecord "MP0001"
            [some "Dr", some "Jane", some "Doe", some "MP 0001", some "Cape Town",
              none, none, some "Active"]]
    ∧ (searchSingleAsBatchResult envOk defaultConfig "MP0001" {}).fst
        = foundResult (rowToRecord "MP0001"
            [some "Dr", some "Jane", some "Doe", some "MP 0001", some "Cape Town",
              none, none, some "Active"]) := by
  have h := parse_positional_contract envOk defaultConfig {} "MP0001" respFound
    [some "Dr", some "Jane", some "Doe", some "MP 0001", some "Cape Town",
      none, none, some "Active"] [] rfl rfl rfl
  exact ⟨h.1, h.2.1⟩

/-! ## Payload-level error flag (C6) -/

/-- A successful HTTP response whose payload carries a non-null,
non-empty error flag next to a matching data row. -/
def respPayloadErr : HPCSAApiResponse :=
  { data := [[some "Dr", some "Jane", some "Doe", some "MP0001", some "Cape Town",
      none, none, some "Active"]]
    error := some "Server error" }

/-- A remote that always answers 200 with `respPayloadErr`. -/
def envPayloadErr : Env := fun _ _ _ => .ok respPayloadErr

/-- C6 counterexample: a payload-level error flag does not fail the
lookup and does not enter the retry path.  With a non-null error flag in
a successful response the wrapper makes exactly one call and returns a
found=false Outcome, whereas a non-success HTTP status makes it retry
(two calls); the two conditions are observably different. -/
theorem payloadError_counterexample :
    errTruthy respPayloadErr.error = true
    ∧ (searchSingleAsBatchResult envPayloadErr defaultConfig "MP0001" {}).snd
        = [.call "MP0001" 15000 0]
    ∧ callCount (searchSingleAsBatchResult envPayloadErr defaultConfig "MP0001" {}).snd = 1
    ∧ (searchSingleAsBatchResult envPayloadErr defaultConfig "MP0001" {}).fst
        = { registration := "MP0001", name := "", city := "", status := "",
            found := false }
    ∧ callCount (searchSingleAsBatchResult envFail defaultConfig "MP0001" {}).snd = 2
    ∧ (searchSingleAsBatchResult envPayloadErr defaultConfig "MP0001" {}).snd
        ≠ (searchSingleAsBatchResult envFail defaultConfig "MP0001" {}).snd := by
  decide

/-- C6 amended: a successful response whose payload carries a truthy
(non-null, non-empty) error flag parses to zero records, so the Retry
Wrapper returns the found=false sentinel after a single call, without
entering the retry path; only a rejected call (timeout or non-success
HTTP status) is treated as transient and retried. -/
theorem payloadError_spec (env : Env) (cfg : HPCSAApiConfig)
    (opts : SearchOptions) (reg : String) (resp : HPCSAApiResponse)
    (hok : env reg (opts.timeoutMs.getD cfg.timeoutMs) 0 = .ok resp)
    (herr : errTruthy resp.error = true) :
    parseSearchResults resp reg = []
    ∧ (searchSingleAsBatchResult env cfg reg opts).fst
        = { registration := reg, name := "", city := "", status := "",
            found := false }
    ∧ (searchSingleAsBatchResult env cfg reg opts).snd
        = [.call reg (opts.timeoutMs.getD cfg.timeoutMs) 0] := by
  have hparse : parseSearchResults resp reg = [] := by
    simp [parseSearchResults, herr]
  refine ⟨hparse, ?_, ?_⟩
  · simp [searchSingleAsBatchResult, hok, hparse, recordsOutcome, notFoundResult]
  · simp [searchSingleAsBatchResult, hok]

/-- Closed instance of the amended C6 at the concrete payload above. -/
theorem payloadError_spec_witness :
    parseSearchResults respPayloadErr "MP0001" = []
    ∧ (searchSingleAsBatchResult envPayloadErr defaultConfig "MP0001" {}).fst
        = { registration := "MP0001", name := "", city := "", status := "",
            found := false } := by
  have h := payloadError_spec envPayloadErr defaultConfig {} "MP0001" respPayloadErr
    rfl (by decide)
  exact ⟨h.1, h.2.1⟩

/-- Closed instance of C8: two runs on a concrete list agree. -/
theorem searchBatch_deterministic_witness :
    (searchBatch envOk defaultConfig ["MP0001", "MP0002"] {}).fst
        = (searchBatch envOk defaultConfig ["MP0001", "MP0002"] {}).fst
    ∧ calculateStatistics (searchBatch envOk defaultConfig ["MP0001", "MP0002"] {}).fst
        = calculateStatistics (searchBatch envOk defaultConfig ["MP0001", "MP0002"] {}).fst :=
  searchBatch_deterministic envOk defaultConfig ["MP0001", "MP0002"] {} _ _ rfl rfl

/-! ## Extractor theorems (C10) -/

theorem getRegistrationNumber_shape (fm : FieldMappings) (ft : FileType)
    (row : Row) (r : String)
    (h : getRegistrationNumber fm ft row = some r) : ∃ v, r = jsTrim v := by
  cases hg : getFieldValue row (fieldMappingsFor fm ft).registration with
  | none => simp [getRegistrationNumber, hg] at h
  | some v =>
    simp only [getRegistrationNumber, hg] at h
    by_cases hv : v = ""
    · simp [hv] at h
    · rw [if_neg hv] at h
      exact ⟨v, (Option.some_injective _ h).symm⟩

theorem rowAction_tryAdd (fm : FieldMappings) (ft : FileType) (row : Row)
    (r : String) (h : rowAction fm ft row = .tryAdd r) :
    r ≠ "" ∧ jsTrim r = r := by
  simp only [rowAction] at h
  by_cases h1 : attendedBlocks (fieldMappingsFor fm ft) row
  · rw [if_pos h1] at h; exact absurd h (by simp)
  · rw [if_neg h1] at h
    by_cases h2 : councilBlocks (fieldMappingsFor fm ft) ft row
    · rw [if_pos h2] at h; exact absurd h (by simp)
    · rw [if_neg h2] at h
      cases hg : getRegistrationNumber fm ft row with
      | none => simp [hg] at h
      | some regNumber =>
        simp only [hg] at h
        by_cases hz : regNumber = ""
        · simp [hz] at h
        · simp only [hz, if_neg, reduceIte, RowAction.tryAdd.injEq] at h
          have hr : r = jsTrim regNumber := h.symm
          rcases getRegistrationNumber_shape fm ft row regNumber hg with ⟨v, hv⟩
          have hfix : jsTrim regNumber = regNumber := by
            rw [hv, jsTrim_jsTrim]
          constructor
          · rw [hr, hfix]; exact hz
          · rw [hr]; exact jsTrim_jsTrim regNumber

theorem qualifyingRegs_props (fm : FieldMappings) (ft : FileType)
    (rows : List Row) :
    ∀ s ∈ qualifyingRegs fm ft rows, s ≠ "" ∧ jsTrim s = s := by
  intro s hs
  unfold qualifyingRegs at hs
  rw [List.mem_filterMap] at hs
  rcases hs with ⟨row, hrow, hact⟩
  cases ha : rowAction fm ft row with
  | countedSkip => rw [ha] at hact; exact absurd hact (by simp)
  | tryAdd r =>
    rw [ha] at hact
    have : r = s := Option.some_injective _ hact
    subst this
    exact rowAction_tryAdd fm ft row r ha

theorem qualifying_count (fm : FieldMappings) (ft : FileType) (rows : List Row) :
    rows.countP (rowSkips fm ft) + (qualifyingRegs fm ft rows).length
      = rows.length := by
  induction rows with
  | nil => rfl
  | cons row rest ih =>
    unfold qualifyingRegs at ih ⊢
    rw [List.filterMap_cons, List.countP_cons]
    cases ha : rowAction fm ft row with
    | countedSkip =>
      have hs : rowSkips fm ft row = true := by simp [rowSkips, ha]
      simp only [ha, hs, List.length_cons]
      simp only [if_true, reduceIte]
      omega
    | tryAdd r =>
      have hs : rowSkips fm ft row = false := by simp [rowSkips, ha]
      simp only [ha, hs, List.length_cons]
      simp only [Bool.false_eq_true, if_false, reduceIte]
      omega

theorem extractLoop_spec (fm : FieldMappings) (ft : FileType) :
    ∀ (rows : List Row) (regs : List String) (skipped : Nat),
      (extractLoop fm ft rows regs skipped).fst
        = regs ++ firstDedupAux regs (qualifyingRegs fm ft rows)
      ∧ (extractLoop fm ft rows regs skipped).snd
        = skipped + rows.countP (rowSkips fm ft) := by
  intro rows
  induction rows with
  | nil => intro regs skipped; simp [extractLoop, qualifyingRegs, firstDedupAux]
  | cons row rest ih =>
    intro regs skipped
    cases ha : rowAction fm ft row with
    | countedSkip =>
      have hq : qualifyingRegs fm ft (row :: rest) = qualifyingRegs fm ft rest := by
        simp [qualifyingRegs, List.filterMap_cons, ha]
      have hs : rowSkips fm ft row = true := by simp [rowSkips, ha]
      simp only [extractLoop, ha]
      rw [hq]
      refine ⟨(ih regs (skipped + 1)).1, ?_⟩
      rw [(ih regs (skipped + 1)).2]
      simp [List.countP_cons, hs]
      omega
    | tryAdd r =>
      rcases rowAction_tryAdd fm ft row r ha with ⟨hr, _⟩
      have hq : qualifyingRegs fm ft (row :: rest)
          = r :: qualifyingRegs fm ft rest := by
        simp [qualifyingRegs, List.filterMap_cons, ha]
      have hs : rowSkips fm ft row = false := by simp [rowSkips, ha]
      simp only [extractLoop, ha]
      rw [hq]
      by_cases hmem : r ∈ regs
      · have hcond : ¬ (r ≠ "" ∧ r ∉ regs) := by
          intro hcon
          exact hcon.2 hmem
        rw [if_neg hcond]
        refine ⟨?_, ?_⟩
        · rw [(ih regs skipped).1]
          simp [firstDedupAux, hmem]
        · rw [(ih regs skipped).2]
          simp [List.countP_cons, hs]
      · have hcond : r ≠ "" ∧ r ∉ regs := ⟨hr, hmem⟩
        rw [if_pos hcond]
        refine ⟨?_, ?_⟩
        · rw [(ih (regs ++ [r]) skipped).1]
          simp only [firstDedupAux, hmem, if_false, reduceIte]
          rw [List.append_assoc]
          rfl
        · rw [(ih (regs ++ [r]) skipped).2]
          simp [List.countP_cons, hs]

theorem firstDedupAux_subset (l : List String) :
    ∀ (seen : List String) (x : String), x ∈ firstDedupAux seen l → x ∈ l := by
  induction l with
  | nil => intro seen x hx; exact absurd hx (by simp [firstDedupAux])
  | cons a rest ih =>
    intro seen x hx
    unfold firstDedupAux at hx
    by_cases hmem : a ∈ seen
    · rw [if_pos hmem] at hx
      exact List.mem_cons_of_mem a (ih seen x hx)
    · rw [if_neg hmem] at hx
      rcases List.mem_cons.mp hx with hx | hx
      · exact hx ▸ List.mem_cons_self a rest
      · exact List.mem_cons_of_mem a (ih (seen ++ [a]) x hx)

theorem firstDedupAux_nodup (l : List String) :
    ∀ seen : List String,
      (firstDedupAux seen l).Nodup
      ∧ ∀ x ∈ firstDedupAux seen l, x ∉ seen := by
  induction l with
  | nil => intro seen; simp [firstDedupAux]
  | cons a rest ih =>
    intro seen
    unfold firstDedupAux
    by_cases hmem : a ∈ seen
    · rw [if_pos hmem]
      exact ih seen
    · rw [if_neg hmem]
      have h2 := ih (seen ++ [a])
      refine ⟨List.nodup_cons.mpr ⟨?_, h2.1⟩, ?_⟩
      · intro hcon
        have := h2.2 a hcon
        simp at this
      · intro x hx
        rcases List.mem_cons.mp hx with hx | hx
        · exact hx ▸ hmem
        · intro hcon
          have := h2.2 x hx
          simp [hcon] at this

theorem firstDedupAux_length (l : List String) :
    ∀ seen : List String,
      (firstDedupAux seen l).length ≤ l.length
      ∧ ((firstDedupAux seen l).length = l.length
          ↔ l.Nodup ∧ ∀ x ∈ l, x ∉ seen) := by
  induction l with
  | nil => intro seen; simp [firstDedupAux]
  | cons a rest ih =>
    intro seen
    unfold firstDedupAux
    by_cases hmem : a ∈ seen
    · rw [if_pos hmem]
      have h1 := ih seen
      refine ⟨by simp only [List.length_cons]; omega, ?_⟩
      constructor
      · intro heq
        exfalso
        have := h1.1
        simp only [List.length_cons] at heq
        omega
      · intro ⟨hnd, hall⟩
        exact absurd hmem (hall a (List.mem_cons_self a rest))
    · rw [if_neg hmem]
      have h2 := ih (seen ++ [a])
      refine ⟨by simp only [List.length_cons]; omega, ?_⟩
      simp only [List.length_cons, Nat.add_right_cancel_iff]
      rw [h2.2]
      constructor
      · intro ⟨hnd, hall⟩
        have hnotin : a ∉ rest := by
          intro hcon
          have := hall a hcon
          simp at this
        refine ⟨List.nodup_cons.mpr ⟨hnotin, hnd⟩, ?_⟩
        intro x hx
        rcases List.mem_cons.mp hx with hx | hx
        · exact hx ▸ hmem
        · intro hcon
          have := hall x hx
          simp [hcon] at this
      · intro ⟨hnd, hall⟩
        rcases List.nodup_cons.mp hnd with ⟨hna, hndrest⟩
        refine ⟨hndrest, ?_⟩
        intro x hx
        simp only [List.mem_append, List.mem_singleton]
        push_neg
        refine ⟨hall x (List.mem_cons_of_mem a hx), ?_⟩
        intro hcon
        exact hna (hcon ▸ hx)

/-- C10: extract returns trimmed, non-empty, pairwise distinct
registration numbers in order of first occurrence (the first-occurrence
deduplication of the qualifying stream); a duplicate row is neither
added nor counted as skipped, so the count of returned numbers plus the
skipped count never exceeds the row count, with equality exactly when no
qualifying row repeats an earlier registration number. -/
theorem extract_spec (fm : FieldMappings) (ft : FileType) (data : List Row) :
    (∀ s ∈ (extract fm ft data).registrationNumbers, s ≠ "" ∧ jsTrim s = s)
    ∧ (extract fm ft data).registrationNumbers.Nodup
    ∧ (extract fm ft data).registrationNumbers
        = firstDedupAux [] (qualifyingRegs fm ft data)
    ∧ (extract fm ft data).registrationNumbers.length
        + (extract fm ft data).skippedCount ≤ (extract fm ft data).totalRows
    ∧ ((extract fm ft data).registrationNumbers.length
        + (extract fm ft data).skippedCount = (extract fm ft data).totalRows
        ↔ (qualifyingRegs fm ft data).Nodup) := by
  have hloop := extractLoop_spec fm ft data [] 0
  have hregs : (extract fm ft data).registrationNumbers
      = firstDedupAux [] (qualifyingRegs fm ft data) := by
    show (extractLoop fm ft data [] 0).fst = _
    rw [hloop.1]
    rfl
  have hskip : (extract fm ft data).skippedCount
      = data.countP (rowSkips fm ft) := by
    show (extractLoop fm ft data [] 0).snd = _
    rw [hloop.2, Nat.zero_add]
  have htot : (extract fm ft data).totalRows = data.length := rfl
  have hcount := qualifying_count fm ft data
  have hlen := firstDedupAux_length (qualifyingRegs fm ft data) []
  have hnodup := firstDedupAux_nodup (qualifyingRegs fm ft data) []
  refine ⟨?_, ?_, hregs, ?_, ?_⟩
  · intro s hs
    rw [hregs] at hs
    exact qualifyingRegs_props fm ft data s
      (firstDedupAux_subset (qualifyingRegs fm ft data) [] s hs)
  · rw [hregs]; exact hnodup.1
  · rw [hregs, hskip, htot]
    omega
  · rw [hregs, hskip, htot]
    have hiff := hlen.2
    constructor
    · intro heq
      have : (firstDedupAux [] (qualifyingRegs fm ft data)).length
          = (qualifyingRegs fm ft data).length := by omega
      exact (hiff.mp this).1
    · intro hnd
      have : (firstDedupAux [] (qualifyingRegs fm ft data)).length
          = (qualifyingRegs fm ft data).length :=
        hiff.mpr ⟨hnd, by simp⟩
      omega

/-- A concrete parsed CSV file: two attending HPCSA rows with distinct
numbers, one duplicate, one non-attending row, one without a number. -/
def demoRows : List Row :=
  [ fun k => if k = "Attended" then some "Yes"
      else if k = "Professional council name" then some "HPCSA"
      else if k = "Professional council number" then some " MP0001 " else none
  , fun k => if k = "Attended" then some "Yes"
      else if k = "Professional council name" then some "HPCSA"
      else if k = "Professional council number" then some "MP0002" else none
  , fun k => if k = "Attended" then some "Yes"
      else if k = "Professional council name" then some "HPCSA"
      else if k = "Professional council number" then some "MP0001" else none
  , fun k => if k = "Attended" then some "No"
      else if k = "Professional council name" then some "HPCSA"
      else if k = "Professional council number" then some "MP0003" else none
  , fun k => if k = "Attended" then some "Yes"
      else if k = "Professional council name" then some "HPCSA" else none ]

/-- Closed instance of C10 on the concrete file: the duplicate row is
neither returned nor skipped, so 2 + 2 < 5 and the iff detects the
repeat. -/
theorem extract_spec_witness :
    (extract defaultFieldMappings FileType.csv demoRows).registrationNumbers.Nodup
    ∧ (extract defaultFieldMappings FileType.csv demoRows).registrationNumbers.length
        + (extract defaultFieldMappings FileType.csv demoRows).skippedCount
        ≤ (extract defaultFieldMappings FileType.csv demoRows).totalRows := by
  have h := extract_spec defaultFieldMappings FileType.csv demoRows
  exact ⟨h.2.1, h.2.2.2.1⟩

end HPCSA
